import Mathlib

/-!
Verification of the block-partitioning + forward-DCT + quantization pipeline
of the dct-rs repository, shallowly embedded in Lean.

Source files embedded: src/pgm_parse.rs (PGMImage, num_blocks, translate_index,
get_block) and src/dct.rs (QUANTIZATION_TABLE, dct, dct_block, alpha,
level_shift_block).  Machine integers (usize, u8, u16, i16) are modelled as
Nat/Int; f64 arithmetic is modelled over ℝ; Rust Result<_, String> is
Except String; a Rust panic on out-of-range slice indexing is modelled as an
explicit error branch ("index out of range").
-/

/-- PGMImage from src/pgm_parse.rs: width, height, maxval and the row-major
raster of samples (image_u8). -/
structure PGMImage where
  width : Nat
  height : Nat
  maxval : Nat
  image_u8 : List Nat

/-- num_blocks from src/pgm_parse.rs:
`self.width * self.height / (block_size * block_size)` (integer division). -/
def PGMImage.num_blocks (img : PGMImage) (block_size : Nat) : Nat :=
  img.width * img.height / (block_size * block_size)

/-- translate_index from src/pgm_parse.rs:
`col_idx = block_index % (width / block_size)`,
`row_idx = block_index / (height / block_size)`,
`row_addend = if row_idx >= 1 { (row_idx + 1) * width } else { 0 }`,
`col_addend = col_idx * block_size`, result `row_addend + col_addend`.
NOTE: when `width / block_size` or `height / block_size` is 0 (a dimension
smaller than the block size, reachable e.g. on a 4×128 raster), the source's
`%` and `/` panic, while Lean's Nat `%` and `/` are total (`x % 0 = x`,
`x / 0 = 0`), so this embedding collapses that panic path into a value.
The theorems below therefore either hypothesize both dimensions at least
the block size (square rasters of side `8 * m` with `0 < m`, or concrete
rasters with dimensions at least 8), or make no statement that becomes
easier under the collapse. -/
def PGMImage.translate_index (img : PGMImage) (block_size block_index : Nat) : Nat :=
  let col_idx := block_index % (img.width / block_size)
  let row_idx := block_index / (img.height / block_size)
  let row_addend := if row_idx ≥ 1 then (row_idx + 1) * img.width else 0
  let col_addend := col_idx * block_size
  row_addend + col_addend

/-- Checked raster indexing: `self.image_u8[idx]` in Rust panics when the
index is out of range; the panic is modelled as the error
"index out of range". -/
def lookup (l : List Nat) (i : Nat) : Except String Nat :=
  match l[i]? with
  | some v => Except.ok v
  | none => Except.error "index out of range"

/-- Body of the inner `for j in 0..8` loop of get_block (src/pgm_parse.rs):
reads `image_u8[i + width * j]`, writes it at `ret[ret_idx]`, advances
`ret_idx` by `block_size` and applies the wraparound
`if ret_idx >= num_pixels { ret_idx = ret_idx % num_pixels + 1 }`.
The state is the pair (ret, ret_idx). -/
def gbInner (img : PGMImage) (block_size num_pixels i : Nat) (st : List Nat × Nat)
    (j : Nat) : Except String (List Nat × Nat) :=
  match lookup img.image_u8 (i + img.width * j) with
  | Except.error e => Except.error e
  | Except.ok v =>
      Except.ok (st.1.set st.2 v,
        if st.2 + block_size ≥ num_pixels then (st.2 + block_size) % num_pixels + 1
        else st.2 + block_size)

/-- Body of the outer `for i in start_index..start_index + 8` loop of
get_block: runs the inner loop for j = 0..8. -/
def gbOuter (img : PGMImage) (block_size num_pixels : Nat) (st : List Nat × Nat)
    (i : Nat) : Except String (List Nat × Nat) :=
  (List.range 8).foldlM (gbInner img block_size num_pixels i) st

/-- get_block from src/pgm_parse.rs.  Checks `block_index >= num_blocks`
(the source formats the offending index into the error message; the message
is modelled by its fixed prefix "out of bounds block index"), then runs the
two nested loops starting from `ret = vec![0; num_pixels]`, `ret_idx = 0`,
with `i` ranging over `start_index..start_index + 8`. -/
def PGMImage.get_block (img : PGMImage) (block_size block_index : Nat) :
    Except String (List Nat) :=
  let num_pixels := block_size * block_size
  let nb := img.width * img.height / (block_size * block_size)
  if block_index ≥ nb then
    Except.error "out of bounds block index"
  else
    match (List.range' (img.translate_index block_size block_index) 8).foldlM
        (gbOuter img block_size num_pixels) (List.replicate num_pixels 0, 0) with
    | Except.error e => Except.error e
    | Except.ok st => Except.ok st.1

/-- QUANTIZATION_TABLE from src/dct.rs (the JPEG standard luminance table),
in the same flat order as the source array. -/
def QUANTIZATION_TABLE : List Nat :=
  [16, 11, 10, 16, 24, 40, 51, 61, 12, 12, 14, 19, 26, 58, 60, 55,
   14, 13, 16, 24, 40, 57, 69, 56, 14, 17, 22, 29, 51, 87, 80, 62,
   18, 22, 37, 56, 68, 109, 103, 77, 24, 35, 55, 64, 81, 104, 113, 92,
   49, 64, 78, 87, 103, 121, 120, 101, 72, 92, 95, 98, 112, 100, 103, 99]

/-- The Rust cast `as i16` applied to a (non-NaN) f64 saturates at the bounds
of the 16-bit signed range. -/
def i16_saturate (x : Int) : Int := max (-32768) (min 32767 x)

/-- One quantization step from the dct pipeline (src/dct.rs):
`(num / (QUANTIZATION_TABLE[idx] as f64)).floor() as i16`. -/
noncomputable def quantize (c : ℝ) (d : Nat) : Int := i16_saturate ⌊c / (d : ℝ)⌋

/-- alpha from src/dct.rs: `1/sqrt(2)` if the index is 0, else 1. -/
noncomputable def alpha (i : Nat) : ℝ := if i = 0 then 1 / Real.sqrt 2 else 1

/-- level_shift_block from src/dct.rs: subtracts 128.0 from every sample. -/
noncomputable def level_shift_block (block : List Nat) : List ℝ :=
  block.map (fun (v : Nat) => (v : ℝ) - 128)

/-- dct_block from src/dct.rs.  The source allocates `dct = vec![0.0; 64]`
and for every `i` in `0..width`, `j` in `0..height` writes
`dct[8*i + j] = 0.25 * alpha(i) * alpha(j) * sum` where `sum` accumulates
`shifted[8*x + y] * cos((2x+1) i π/16) * cos((2y+1) j π/16)` over
`x` in `0..width`, `y` in `0..height`.  Since each flat index `8*i + j`
(with `i = idx / 8`, `j = idx % 8`) is written exactly once with a pure
value, the loop is embedded as the map of that value over all flat indices.
`shifted[8*x + y]` is a panicking index in the source; it is in range for
every 8×8 block, and is embedded with getD. -/
noncomputable def dct_block (width height : Nat) (block : List Nat) : List ℝ :=
  let shifted := level_shift_block block
  (List.range shifted.length).map fun idx =>
    0.25 * alpha (idx / 8) * alpha (idx % 8) *
      ∑ x ∈ Finset.range width, ∑ y ∈ Finset.range height,
        shifted.getD (8 * x + y) 0 *
          Real.cos ((2 * (x : ℝ) + 1) * ((idx / 8 : Nat) : ℝ) * Real.pi / 16) *
          Real.cos ((2 * (y : ℝ) + 1) * ((idx % 8 : Nat) : ℝ) * Real.pi / 16)

/-- The `.iter().enumerate().map(|(idx, num)| quantize(num, table[idx]))`
step of the dct pipeline (src/dct.rs): element `idx` of the result is the
quantization of element `idx` of the coefficient list against
`QUANTIZATION_TABLE[idx]`; the result has the same length as the input. -/
noncomputable def quantize_block (coeffs : List ℝ) : List Int :=
  (List.range coeffs.length).map fun idx =>
    quantize (coeffs.getD idx 0) (QUANTIZATION_TABLE.getD idx 0)

/-- One iteration of the `for block_index in 0..num_blocks` loop of dct
(src/dct.rs): `get_block(8, block_index)?` (the `?` short-circuits on the
first error), then dct_block, quantization, and `ret.push(...)`. -/
noncomputable def dctStep (img : PGMImage) (ret : List (List Int))
    (block_index : Nat) : Except String (List (List Int)) :=
  match img.get_block 8 block_index with
  | Except.error e => Except.error e
  | Except.ok blk => Except.ok (ret ++ [quantize_block (dct_block 8 8 blk)])

/-- dct from src/dct.rs: folds dctStep over block indices 0..num_blocks,
starting from the empty output vector. -/
noncomputable def dct (img : PGMImage) : Except String (List (List Int)) :=
  (List.range (img.num_blocks 8)).foldlM (dctStep img) []

/-- Modelled from the spec: the source has no reassembly routine, so the
round-trip reassembly of spec section 4.2 ("reassembling all extracted
blocks in row-major order must exactly reconstruct the original raster's
sample sequence", canonical row-major layout with
blocks_per_row = width / block_size) is modelled here: the sample of raster
row R, column C is element `(R % 8) * 8 + (C % 8)` of block
`(R / 8) * (width / 8) + C / 8`. -/
def reassemble (width height : Nat) (blocks : List (List Nat)) : List Nat :=
  (List.range (width * height)).map fun p =>
    (blocks.getD ((p / width / 8) * (width / 8) + (p % width) / 8) []).getD
      ((p / width % 8) * 8 + (p % width) % 8) 0

/-- All blocks of an image, in ascending block-index order, as extracted by
get_block with block size 8. -/
def extractAll (img : PGMImage) : List (List Nat) :=
  (List.range (img.num_blocks 8)).map fun b => ((img.get_block 8 b).toOption).getD []

/-- A 16×16 raster whose sample at row r, column c is r (so every sample
records which raster row it came from). -/
def pgm16 : PGMImage := ⟨16, 16, 255, (List.range 256).map (fun p => p / 16)⟩

/-- A 16×8 raster (width 16, height 8), all samples 0: dimensions are exact
multiples of 8 and the sample count is width * height = 128. -/
def pgm16x8 : PGMImage := ⟨16, 8, 255, List.replicate 128 0⟩

/-- A 9×9 raster, all samples 0: 8 divides neither dimension. -/
def pgm9 : PGMImage := ⟨9, 9, 255, List.replicate 81 0⟩

/-- A 512×512 raster, all samples 0. -/
def pgm512 : PGMImage := ⟨512, 512, 255, List.replicate (512 * 512) 0⟩

/-- Proof infrastructure: the eight writes performed by one outer iteration of
get_block's loop (block_size 8): positions k, k+8, ..., k+56 receive
v 0, ..., v 7. -/
def setStripe (ret : List Nat) (k : Nat) (v : Nat → Nat) : List Nat :=
  (((((((ret.set k (v 0)).set (k + 8) (v 1)).set (k + 16) (v 2)).set (k + 24) (v 3)).set
      (k + 32) (v 4)).set (k + 40) (v 5)).set (k + 48) (v 6)).set (k + 56) (v 7)

set_option maxRecDepth 100000

theorem ok_bind {α β : Type} (a : α) (f : α → Except String β) :
    (Except.ok a >>= f) = f a := rfl

theorem error_bind {α β : Type} (e : String) (f : α → Except String β) :
    ((Except.error e : Except String α) >>= f) = Except.error e := rfl

theorem lookup_ok (l : List Nat) (i : Nat) (h : i < l.length) :
    lookup l i = Except.ok (l.getD i 0) := by
  rw [lookup, List.getD_eq_getElem?_getD]
  cases hl : l[i]? with
  | none => exact absurd (List.getElem?_eq_none_iff.mp hl) (by omega)
  | some v => rfl

theorem lookup_error (l : List Nat) (i : Nat) (e : String)
    (h : lookup l i = Except.error e) : e = "index out of range" := by
  rw [lookup] at h
  cases hl : l[i]? with
  | none => rw [hl] at h; injection h with h2; exact h2.symm
  | some v => rw [hl] at h; exact absurd h (by simp)

theorem getD_set_self (l : List Nat) (n v : Nat) (h : n < l.length) :
    (l.set n v).getD n 0 = v := by
  simp [List.getD_eq_getElem?_getD, List.getElem?_set, h]

theorem getD_set_ne (l : List Nat) (n p v : Nat) (h : n ≠ p) :
    (l.set n v).getD p 0 = l.getD p 0 := by
  simp [List.getD_eq_getElem?_getD, List.getElem?_set, h]

theorem setStripe_length (ret : List Nat) (k : Nat) (v : Nat → Nat) :
    (setStripe ret k v).length = ret.length := by
  simp [setStripe, List.length_set]

theorem getD_setStripe (ret : List Nat) (k : Nat) (v : Nat → Nat) (p : Nat)
    (hk : k < 8) (hlen : ret.length = 64) (hp : p < 64) :
    (setStripe ret k v).getD p 0 = if p % 8 = k then v (p / 8) else ret.getD p 0 := by
  have hl1 : (ret.set k (v 0)).length = 64 := by simp [List.length_set, hlen]
  have hl2 : ((ret.set k (v 0)).set (k + 8) (v 1)).length = 64 := by
    simp [List.length_set, hlen]
  have hl3 : (((ret.set k (v 0)).set (k + 8) (v 1)).set (k + 16) (v 2)).length = 64 := by
    simp [List.length_set, hlen]
  have hl4 : ((((ret.set k (v 0)).set (k + 8) (v 1)).set (k + 16) (v 2)).set (k + 24)
      (v 3)).length = 64 := by simp [List.length_set, hlen]
  have hl5 : (((((ret.set k (v 0)).set (k + 8) (v 1)).set (k + 16) (v 2)).set (k + 24)
      (v 3)).set (k + 32) (v 4)).length = 64 := by simp [List.length_set, hlen]
  have hl6 : ((((((ret.set k (v 0)).set (k + 8) (v 1)).set (k + 16) (v 2)).set (k + 24)
      (v 3)).set (k + 32) (v 4)).set (k + 40) (v 5)).length = 64 := by
    simp [List.length_set, hlen]
  have hl7 : (((((((ret.set k (v 0)).set (k + 8) (v 1)).set (k + 16) (v 2)).set (k + 24)
      (v 3)).set (k + 32) (v 4)).set (k + 40) (v 5)).set (k + 48) (v 6)).length = 64 := by
    simp [List.length_set, hlen]
  rw [setStripe]
  by_cases hc : p % 8 = k
  · rw [if_pos hc]
    have hq : p / 8 = 0 ∨ p / 8 = 1 ∨ p / 8 = 2 ∨ p / 8 = 3 ∨ p / 8 = 4 ∨ p / 8 = 5 ∨
        p / 8 = 6 ∨ p / 8 = 7 := by omega
    rcases hq with h | h | h | h | h | h | h | h
    · rw [h, show p = k from by omega]
      rw [getD_set_ne _ _ _ _ (by omega), getD_set_ne _ _ _ _ (by omega),
          getD_set_ne _ _ _ _ (by omega), getD_set_ne _ _ _ _ (by omega),
          getD_set_ne _ _ _ _ (by omega), getD_set_ne _ _ _ _ (by omega),
          getD_set_ne _ _ _ _ (by omega), getD_set_self _ _ _ (by rw [hlen]; omega)]
    · rw [h, show p = k + 8 from by omega]
      rw [getD_set_ne _ _ _ _ (by omega), getD_set_ne _ _ _ _ (by omega),
          getD_set_ne _ _ _ _ (by omega), getD_set_ne _ _ _ _ (by omega),
          getD_set_ne _ _ _ _ (by omega), getD_set_ne _ _ _ _ (by omega),
          getD_set_self _ _ _ (by rw [hl1]; omega)]
    · rw [h, show p = k + 16 from by omega]
      rw [getD_set_ne _ _ _ _ (by omega), getD_set_ne _ _ _ _ (by omega),
          getD_set_ne _ _ _ _ (by omega), getD_set_ne _ _ _ _ (by omega),
          getD_set_ne _ _ _ _ (by omega), getD_set_self _ _ _ (by rw [hl2]; omega)]
    · rw [h, show p = k + 24 from by omega]
      rw [getD_set_ne _ _ _ _ (by omega), getD_set_ne _ _ _ _ (by omega),
          getD_set_ne _ _ _ _ (by omega), getD_set_ne _ _ _ _ (by omega),
          getD_set_self _ _ _ (by rw [hl3]; omega)]
    · rw [h, show p = k + 32 from by omega]
      rw [getD_set_ne _ _ _ _ (by omega), getD_set_ne _ _ _ _ (by omega),
          getD_set_ne _ _ _ _ (by omega), getD_set_self _ _ _ (by rw [hl4]; omega)]
    · rw [h, show p = k + 40 from by omega]
      rw [getD_set_ne _ _ _ _ (by omega), getD_set_ne _ _ _ _ (by omega),
          getD_set_self _ _ _ (by rw [hl5]; omega)]
    · rw [h, show p = k + 48 from by omega]
      rw [getD_set_ne _ _ _ _ (by omega), getD_set_self _ _ _ (by rw [hl6]; omega)]
    · rw [h, show p = k + 56 from by omega]
      rw [getD_set_self _ _ _ (by rw [hl7]; omega)]
  · rw [if_neg hc]
    rw [getD_set_ne _ _ _ _ (by omega), getD_set_ne _ _ _ _ (by omega),
        getD_set_ne _ _ _ _ (by omega), getD_set_ne _ _ _ _ (by omega),
        getD_set_ne _ _ _ _ (by omega), getD_set_ne _ _ _ _ (by omega),
        getD_set_ne _ _ _ _ (by omega), getD_set_ne _ _ _ _ (by omega)]

theorem gbInner_ok (img : PGMImage) (i j ridx : Nat) (ret : List Nat)
    (h : i + img.width * j < img.image_u8.length) :
    gbInner img 8 64 i (ret, ridx) j =
      Except.ok (ret.set ridx (img.image_u8.getD (i + img.width * j) 0),
        if ridx + 8 ≥ 64 then (ridx + 8) % 64 + 1 else ridx + 8) := by
  rw [gbInner, lookup_ok _ _ h]

theorem gbOuter_char (img : PGMImage) (i k : Nat) (hk : k < 8) (ret : List Nat)
    (hlen : ret.length = 64)
    (hin : ∀ j, j < 8 → i + img.width * j < img.image_u8.length) :
    ∃ ret2, gbOuter img 8 64 (ret, k) i = Except.ok (ret2, k + 1) ∧ ret2.length = 64 ∧
      ∀ p, p < 64 → ret2.getD p 0 =
        if p % 8 = k then img.image_u8.getD (i + img.width * (p / 8)) 0
        else ret.getD p 0 := by
  refine ⟨setStripe ret k (fun j => img.image_u8.getD (i + img.width * j) 0), ?_, ?_, ?_⟩
  · rw [gbOuter, show List.range 8 = [0, 1, 2, 3, 4, 5, 6, 7] from rfl]
    simp only [List.foldlM]
    rw [gbInner_ok img i 0 k ret (hin 0 (by norm_num)),
        if_neg (by omega : ¬k + 8 ≥ 64), ok_bind]
    rw [gbInner_ok img i 1 (k + 8) _ (hin 1 (by norm_num)),
        if_neg (by omega : ¬k + 8 + 8 ≥ 64), show k + 8 + 8 = k + 16 from by omega, ok_bind]
    rw [gbInner_ok img i 2 (k + 16) _ (hin 2 (by norm_num)),
        if_neg (by omega : ¬k + 16 + 8 ≥ 64), show k + 16 + 8 = k + 24 from by omega, ok_bind]
    rw [gbInner_ok img i 3 (k + 24) _ (hin 3 (by norm_num)),
        if_neg (by omega : ¬k + 24 + 8 ≥ 64), show k + 24 + 8 = k + 32 from by omega, ok_bind]
    rw [gbInner_ok img i 4 (k + 32) _ (hin 4 (by norm_num)),
        if_neg (by omega : ¬k + 32 + 8 ≥ 64), show k + 32 + 8 = k + 40 from by omega, ok_bind]
    rw [gbInner_ok img i 5 (k + 40) _ (hin 5 (by norm_num)),
        if_neg (by omega : ¬k + 40 + 8 ≥ 64), show k + 40 + 8 = k + 48 from by omega, ok_bind]
    rw [gbInner_ok img i 6 (k + 48) _ (hin 6 (by norm_num)),
        if_neg (by omega : ¬k + 48 + 8 ≥ 64), show k + 48 + 8 = k + 56 from by omega, ok_bind]
    rw [gbInner_ok img i 7 (k + 56) _ (hin 7 (by norm_num)),
        if_pos (by omega : k + 56 + 8 ≥ 64),
        show (k + 56 + 8) % 64 + 1 = k + 1 from by omega, ok_bind]
    rfl
  · rw [setStripe_length, hlen]
  · intro p hp
    exact getD_setStripe ret k _ p hk hlen hp

theorem get_block_ok (img : PGMImage) (b : Nat)
    (hb : b < img.width * img.height / 64)
    (hin : ∀ k j, k < 8 → j < 8 →
      img.translate_index 8 b + k + img.width * j < img.image_u8.length) :
    ∃ ret, img.get_block 8 b = Except.ok ret ∧ ret.length = 64 ∧
      ∀ r c, r < 8 → c < 8 →
        ret.getD (8 * r + c) 0 =
          img.image_u8.getD (img.translate_index 8 b + c + img.width * r) 0 := by
  have h0 : ∀ j, j < 8 → img.translate_index 8 b + img.width * j < img.image_u8.length :=
    fun j hj => by have := hin 0 j (by norm_num) hj; omega
  have h1 : ∀ j, j < 8 → img.translate_index 8 b + 1 + img.width * j < img.image_u8.length :=
    fun j hj => hin 1 j (by norm_num) hj
  have h2 : ∀ j, j < 8 → img.translate_index 8 b + 2 + img.width * j < img.image_u8.length :=
    fun j hj => hin 2 j (by norm_num) hj
  have h3 : ∀ j, j < 8 → img.translate_index 8 b + 3 + img.width * j < img.image_u8.length :=
    fun j hj => hin 3 j (by norm_num) hj
  have h4 : ∀ j, j < 8 → img.translate_index 8 b + 4 + img.width * j < img.image_u8.length :=
    fun j hj => hin 4 j (by norm_num) hj
  have h5 : ∀ j, j < 8 → img.translate_index 8 b + 5 + img.width * j < img.image_u8.length :=
    fun j hj => hin 5 j (by norm_num) hj
  have h6 : ∀ j, j < 8 → img.translate_index 8 b + 6 + img.width * j < img.image_u8.length :=
    fun j hj => hin 6 j (by norm_num) hj
  have h7 : ∀ j, j < 8 → img.translate_index 8 b + 7 + img.width * j < img.image_u8.length :=
    fun j hj => hin 7 j (by norm_num) hj
  obtain ⟨R1, e1, l1, c1⟩ :=
    gbOuter_char img (img.translate_index 8 b) 0 (by norm_num) (List.replicate 64 0)
      (by simp) h0
  obtain ⟨R2, e2, l2, c2⟩ :=
    gbOuter_char img (img.translate_index 8 b + 1) 1 (by norm_num) R1 l1 h1
  obtain ⟨R3, e3, l3, c3⟩ :=
    gbOuter_char img (img.translate_index 8 b + 2) 2 (by norm_num) R2 l2 h2
  obtain ⟨R4, e4, l4, c4⟩ :=
    gbOuter_char img (img.translate_index 8 b + 3) 3 (by norm_num) R3 l3 h3
  obtain ⟨R5, e5, l5, c5⟩ :=
    gbOuter_char img (img.translate_index 8 b + 4) 4 (by norm_num) R4 l4 h4
  obtain ⟨R6, e6, l6, c6⟩ :=
    gbOuter_char img (img.translate_index 8 b + 5) 5 (by norm_num) R5 l5 h5
  obtain ⟨R7, e7, l7, c7⟩ :=
    gbOuter_char img (img.translate_index 8 b + 6) 6 (by norm_num) R6 l6 h6
  obtain ⟨R8, e8, l8, c8⟩ :=
    gbOuter_char img (img.translate_index 8 b + 7) 7 (by norm_num) R7 l7 h7
  refine ⟨R8, ?_, l8, ?_⟩
  · simp only [PGMImage.get_block, show (8 : Nat) * 8 = 64 from rfl]
    rw [if_neg (by omega : ¬b ≥ img.width * img.height / 64)]
    rw [show List.range' (img.translate_index 8 b) 8 =
          [img.translate_index 8 b, img.translate_index 8 b + 1, img.translate_index 8 b + 2,
           img.translate_index 8 b + 3, img.translate_index 8 b + 4, img.translate_index 8 b + 5,
           img.translate_index 8 b + 6, img.translate_index 8 b + 7] from rfl]
    simp only [List.foldlM]
    rw [e1, ok_bind, show (0 : Nat) + 1 = 1 from rfl]
    rw [e2, ok_bind, show (1 : Nat) + 1 = 2 from rfl]
    rw [e3, ok_bind, show (2 : Nat) + 1 = 3 from rfl]
    rw [e4, ok_bind, show (3 : Nat) + 1 = 4 from rfl]
    rw [e5, ok_bind, show (4 : Nat) + 1 = 5 from rfl]
    rw [e6, ok_bind, show (5 : Nat) + 1 = 6 from rfl]
    rw [e7, ok_bind, show (6 : Nat) + 1 = 7 from rfl]
    rw [e8, ok_bind]
    rfl
  · intro r c hr hc
    have hp : 8 * r + c < 64 := by omega
    have hmod : (8 * r + c) % 8 = c := by omega
    have hdiv : (8 * r + c) / 8 = r := by omega
    rw [c8 _ hp, hmod, hdiv, c7 _ hp, hmod, hdiv, c6 _ hp, hmod, hdiv, c5 _ hp, hmod, hdiv,
        c4 _ hp, hmod, hdiv, c3 _ hp, hmod, hdiv, c2 _ hp, hmod, hdiv, c1 _ hp, hmod, hdiv]
    interval_cases c <;> simp

theorem translate_bound (img : PGMImage) (m b k j : Nat)
    (hw : img.width = 8 * m) (hh : img.height = img.width) (hm : 0 < m)
    (hb : b < m * m) (hk : k < 8) (hj : j < 8) :
    img.translate_index 8 b + k + img.width * j < img.width * img.height := by
  simp only [PGMImage.translate_index, hh, hw]
  have hdiv8 : (8 * m) / 8 = m := by omega
  rw [hdiv8]
  have hr : b / m < m := Nat.div_lt_of_lt_mul hb
  have hc : b % m < m := Nat.mod_lt _ hm
  by_cases h1 : b / m ≥ 1
  · rw [if_pos h1]
    have h2m : 2 ≤ m := by
      rcases Nat.lt_or_ge m 2 with h | h
      · have hm1 : m = 1 := by omega
        rw [hm1, Nat.div_one] at h1
        rw [hm1] at hb
        omega
      · exact h
    have e1 : (b / m + 1) * (8 * m) ≤ m * (8 * m) :=
      Nat.mul_le_mul (by omega) (le_refl _)
    have e2 : b % m * 8 ≤ (m - 1) * 8 := Nat.mul_le_mul (by omega) (le_refl _)
    have e3 : 8 * m * j ≤ 8 * m * 7 := Nat.mul_le_mul (le_refl _) (by omega)
    nlinarith [e1, e2, e3, hk, h2m]
  · rw [if_neg h1]
    have e2 : b % m * 8 ≤ (m - 1) * 8 := Nat.mul_le_mul (by omega) (le_refl _)
    have e3 : 8 * m * j ≤ 8 * m * 7 := Nat.mul_le_mul (le_refl _) (by omega)
    nlinarith [e2, e3, hk, hm]

theorem sum_cos_freq_zero (u : Nat) (h1 : 1 ≤ u) (h2 : u ≤ 15) :
    ∑ x ∈ Finset.range 8, Real.cos ((2 * (x : ℝ) + 1) * (u : ℝ) * Real.pi / 16) = 0 := by
  have hpi := Real.pi_pos
  have hu0 : (0 : ℝ) < (u : ℝ) := by exact_mod_cast h1
  have hu15 : (u : ℝ) ≤ 15 := by exact_mod_cast h2
  set α : ℝ := (u : ℝ) * Real.pi / 16 with ha
  have hα0 : 0 < α := by
    rw [ha]
    positivity
  have hαπ : α < Real.pi := by
    rw [ha]
    nlinarith
  have hsin : Real.sin α ≠ 0 := ne_of_gt (Real.sin_pos_of_pos_of_lt_pi hα0 hαπ)
  have harg : ∀ x : Nat, (2 * (x : ℝ) + 1) * (u : ℝ) * Real.pi / 16 = (2 * (x : ℝ) + 1) * α := by
    intro x
    rw [ha]
    ring
  have tele : ∀ x : Nat,
      Real.sin (2 * ((x : ℝ) + 1) * α) - Real.sin (2 * (x : ℝ) * α) =
        2 * Real.sin α * Real.cos ((2 * (x : ℝ) + 1) * α) := by
    intro x
    rw [Real.sin_sub_sin]
    congr 1
    · congr 1
      ring_nf
    · congr 1
      ring
  have hsum : ∑ x ∈ Finset.range 8, (2 * Real.sin α * Real.cos ((2 * (x : ℝ) + 1) * α)) =
      Real.sin (2 * ((8 : Nat) : ℝ) * α) - Real.sin (2 * ((0 : Nat) : ℝ) * α) := by
    rw [← Finset.sum_range_sub (fun n : Nat => Real.sin (2 * (n : ℝ) * α)) 8]
    apply Finset.sum_congr rfl
    intro x hx
    rw [← tele x]
    congr 2
    push_cast
    ring
  have h16 : Real.sin (2 * ((8 : Nat) : ℝ) * α) = 0 := by
    rw [ha, show 2 * ((8 : Nat) : ℝ) * ((u : ℝ) * Real.pi / 16) = (u : ℝ) * Real.pi from by
      push_cast
      ring]
    exact Real.sin_nat_mul_pi u
  have h00 : Real.sin (2 * ((0 : Nat) : ℝ) * α) = 0 := by
    rw [show 2 * ((0 : Nat) : ℝ) * α = 0 from by push_cast; ring]
    exact Real.sin_zero
  rw [h16, h00, sub_zero] at hsum
  have hfac : 2 * Real.sin α *
      (∑ x ∈ Finset.range 8, Real.cos ((2 * (x : ℝ) + 1) * α)) = 0 := by
    rw [Finset.mul_sum]
    exact hsum
  have hz : ∑ x ∈ Finset.range 8, Real.cos ((2 * (x : ℝ) + 1) * α) = 0 := by
    rcases mul_eq_zero.mp hfac with h | h
    · rcases mul_eq_zero.mp h with h2 | h2
      · norm_num at h2
      · exact absurd h2 hsin
    · exact h
  calc ∑ x ∈ Finset.range 8, Real.cos ((2 * (x : ℝ) + 1) * (u : ℝ) * Real.pi / 16)
      = ∑ x ∈ Finset.range 8, Real.cos ((2 * (x : ℝ) + 1) * α) := by
        apply Finset.sum_congr rfl
        intro x hx
        rw [harg x]
    _ = 0 := hz

theorem sum_cos_freq_dc :
    ∑ x ∈ Finset.range 8, Real.cos ((2 * (x : ℝ) + 1) * ((0 : Nat) : ℝ) * Real.pi / 16) = 8 := by
  have h : ∀ x : Nat, (2 * (x : ℝ) + 1) * ((0 : Nat) : ℝ) * Real.pi / 16 = 0 := by
    intro x
    push_cast
    ring
  rw [Finset.sum_congr rfl (fun x _ => by rw [h x, Real.cos_zero])]
  simp

theorem getD_range_map (f : Nat → ℝ) (n i : Nat) (d : ℝ) (h : i < n) :
    ((List.range n).map f).getD i d = f i := by
  rw [List.getD_eq_getElem?_getD, List.getElem?_map, List.getElem?_range h]
  rfl

theorem getD_replicate {α : Type} (n : Nat) (a d : α) (i : Nat) (h : i < n) :
    (List.replicate n a).getD i d = a := by
  rw [List.getD_eq_getElem?_getD, List.getElem?_replicate, if_pos h]
  rfl

theorem dct_block_const_entry (k : Nat) (idx : Nat) (hidx : idx < 64) :
    (dct_block 8 8 (List.replicate 64 k)).getD idx 0 =
      0.25 * alpha (idx / 8) * alpha (idx % 8) * (((k : ℝ) - 128) *
        (∑ x ∈ Finset.range 8,
          Real.cos ((2 * (x : ℝ) + 1) * ((idx / 8 : Nat) : ℝ) * Real.pi / 16)) *
        (∑ y ∈ Finset.range 8,
          Real.cos ((2 * (y : ℝ) + 1) * ((idx % 8 : Nat) : ℝ) * Real.pi / 16))) := by
  have hsh : level_shift_block (List.replicate 64 k) = List.replicate 64 ((k : ℝ) - 128) := by
    simp [level_shift_block, List.map_replicate]
  simp only [dct_block, hsh, List.length_replicate]
  rw [getD_range_map _ _ _ _ hidx]
  rw [Finset.sum_congr rfl (fun x hx => Finset.sum_congr rfl (fun y hy => by
    rw [getD_replicate 64 ((k : ℝ) - 128) 0 (8 * x + y) (by
      have hx8 := Finset.mem_range.mp hx
      have hy8 := Finset.mem_range.mp hy
      omega)]))]
  congr 1
  rw [Finset.sum_congr rfl (fun x _ => by
    rw [← Finset.mul_sum])]
  rw [← Finset.sum_mul, ← Finset.mul_sum]


theorem dct_fold_spec (img : PGMImage) (n : Nat) :
    (∃ e b, (List.range n).foldlM (dctStep img) [] = Except.error e ∧ b < n ∧
        img.get_block 8 b = Except.error e ∧
        ∀ b2, b2 < b → ∃ blk, img.get_block 8 b2 = Except.ok blk) ∨
    (∃ out, (List.range n).foldlM (dctStep img) [] = Except.ok out ∧ out.length = n ∧
        ∀ b, b < n → ∃ blk, img.get_block 8 b = Except.ok blk ∧
          out.getD b [] = quantize_block (dct_block 8 8 blk)) := by
  induction n with
  | zero =>
      right
      exact ⟨[], rfl, rfl, fun b hb => absurd hb (by omega)⟩
  | succ n ih =>
      rw [List.range_succ, List.foldlM_append]
      rcases ih with ⟨e, b, he, hbn, hgb, hpre⟩ | ⟨out, hok, hlen, hall⟩
      · left
        refine ⟨e, b, ?_, by omega, hgb, hpre⟩
        rw [he, error_bind]
      · rw [hok, ok_bind]
        simp only [List.foldlM]
        cases hg : img.get_block 8 n with
        | error e =>
            left
            refine ⟨e, n, ?_, by omega, hg, fun b2 hb2 => (hall b2 hb2).imp
              (fun blk h => h.1)⟩
            rw [show dctStep img out n = Except.error e from by rw [dctStep, hg], error_bind]
        | ok blk =>
            right
            refine ⟨out ++ [quantize_block (dct_block 8 8 blk)], ?_, ?_, ?_⟩
            · rw [show dctStep img out n =
                    Except.ok (out ++ [quantize_block (dct_block 8 8 blk)]) from by
                  rw [dctStep, hg], ok_bind]
              rfl
            · rw [List.length_append, hlen]
              rfl
            · intro b hb
              by_cases hbe : b < n
              · obtain ⟨blk2, hblk2, hout⟩ := hall b hbe
                refine ⟨blk2, hblk2, ?_⟩
                rw [List.getD_append _ _ _ _ (by omega : b < out.length), hout]
              · have hbn2 : b = n := by omega
                refine ⟨blk, hbn2 ▸ hg, ?_⟩
                rw [hbn2, List.getD_append_right _ _ _ _ (by omega : out.length ≤ n),
                    show n - out.length = 0 from by omega]
                rfl

theorem floor_neg_one_div_sixteen : ⌊(-1 : ℝ) / ((16 : Nat) : ℝ)⌋ = -1 := by
  rw [show ((16 : Nat) : ℝ) = (16 : ℝ) from by norm_num, Int.floor_eq_iff]
  constructor
  · norm_num
  · norm_num

theorem floor_big_div_sixteen : ⌊(1000000 : ℝ) / ((16 : Nat) : ℝ)⌋ = 62500 := by
  rw [show (1000000 : ℝ) / ((16 : Nat) : ℝ) = ((62500 : Int) : ℝ) from by push_cast; norm_num,
      Int.floor_intCast]

theorem quantize_eq_floor (c : ℝ) (d : Nat)
    (h1 : -32768 ≤ ⌊c / (d : ℝ)⌋) (h2 : ⌊c / (d : ℝ)⌋ ≤ 32767) :
    quantize c d = ⌊c / (d : ℝ)⌋ := by
  rw [quantize, i16_saturate, min_eq_right h2, max_eq_right h1]

theorem quantize_neg_one_sixteen : quantize (-1 : ℝ) 16 = -1 := by
  rw [quantize, floor_neg_one_div_sixteen]
  rfl

theorem get_block_square_char (img : PGMImage) (m b : Nat)
    (hw : img.width = 8 * m) (hh : img.height = img.width) (hm : 0 < m)
    (hlen : img.image_u8.length = img.width * img.height)
    (hb : b < img.num_blocks 8) :
    ∃ ret, img.get_block 8 b = Except.ok ret ∧ ret.length = 64 ∧
      ∀ r c, r < 8 → c < 8 →
        ret.getD (8 * r + c) 0 =
          img.image_u8.getD (img.translate_index 8 b + c + img.width * r) 0 := by
  have hnb : img.num_blocks 8 = m * m := by
    rw [PGMImage.num_blocks, hh, hw, show 8 * m * (8 * m) = 64 * (m * m) from by ring]
    omega
  rw [hnb] at hb
  apply get_block_ok
  · rw [hh, hw, show 8 * m * (8 * m) = 64 * (m * m) from by ring]
    omega
  · intro k j hk hj
    rw [hlen]
    exact translate_bound img m b k j hw hh hm hb hk hj

theorem dct_pgm9_eval :
    dct pgm9 = Except.ok [quantize_block (dct_block 8 8 (List.replicate 64 0))] := by
  have h0 : pgm9.get_block 8 0 = Except.ok (List.replicate 64 0) := rfl
  have h1 : pgm9.num_blocks 8 = 1 := rfl
  rw [dct, h1, show List.range 1 = [0] from rfl]
  simp only [List.foldlM]
  rw [show dctStep pgm9 [] 0 =
        Except.ok [quantize_block (dct_block 8 8 (List.replicate 64 0))] from by
      rw [dctStep, h0]; rfl]
  rfl

/-- Claim C1: extraction does not compose to the identity on the raster.
For the 16×16 raster whose sample at row r is r (width and height are
positive multiples of 8), reassembling all four extracted 8×8 blocks in
row-major block order does not reconstruct the original sample sequence:
translate_index places block 2 at flat offset 32 (raster row 2) instead of
128 (raster row 8), so raster rows 10 through 15 appear in no block at all
while rows 2 through 7 are extracted twice. -/
theorem c1_extraction_round_trip_fails :
    reassemble 16 16 (extractAll pgm16) ≠ pgm16.image_u8 := by decide

/-- Claim C2: the start offset computed by translate_index deviates from the
blocks-per-row decomposition.  For the 16×16 raster at block index 2 the
code computes 32 (so get_block gathers rows 2 through 9, columns 0 through 7)
while block_row * block_size * width + block_col * block_size with
block_row = 2 / (16 / 8) = 1 and block_col = 2 % (16 / 8) = 0 is 128
(rows 8 through 15, columns 0 through 7). -/
theorem c2_translate_index_start_offset :
    pgm16.translate_index 8 2 = 32 ∧
      2 / (pgm16.width / 8) * 8 * pgm16.width + 2 % (pgm16.width / 8) * 8 = 128 ∧
      (32 : Nat) ≠ 128 := by decide

/-- Claim C3 counterexample: num_blocks does not fail when the block size
divides neither dimension, and no precondition failure is detected before
blocks are processed: for the 9×9 raster (9 % 8 ≠ 0) num_blocks returns the
inexact quotient 81 / 64 = 1 and dct fully processes that one block and
succeeds. -/
theorem c3_no_invalid_block_size_failure :
    pgm9.num_blocks 8 = 1 ∧ 9 % 8 ≠ 0 ∧
      dct pgm9 = Except.ok [quantize_block (dct_block 8 8 (List.replicate 64 0))] :=
  ⟨rfl, by norm_num, dct_pgm9_eval⟩

/-- Claim C3 (amended): num_blocks never fails: for any positive block size
it totally computes the integer quotient width * height / (block_size *
block_size), exact or not (the hypothesis 0 < block_size keeps the statement
within the domain where the source's division does not panic), and dct
performs no divisibility precondition check: for the 9×9 raster it computes
the inexact quotient 1 and fully processes that block, succeeding, instead of
detecting a precondition failure before any block is processed. -/
theorem c3_num_blocks_total (img : PGMImage) (block_size : Nat)
    (_hbs : 0 < block_size) :
    img.num_blocks block_size = img.width * img.height / (block_size * block_size) ∧
      pgm9.num_blocks 8 = 1 ∧ 9 % 8 ≠ 0 ∧
      dct pgm9 = Except.ok [quantize_block (dct_block 8 8 (List.replicate 64 0))] :=
  ⟨rfl, rfl, by norm_num, dct_pgm9_eval⟩

theorem c3_num_blocks_total_witness :
    pgm9.num_blocks 8 = pgm9.width * pgm9.height / (8 * 8) ∧
      pgm9.num_blocks 8 = 1 ∧ 9 % 8 ≠ 0 ∧
      dct pgm9 = Except.ok [quantize_block (dct_block 8 8 (List.replicate 64 0))] :=
  c3_num_blocks_total pgm9 8 (by norm_num)

/-- Claim C4: the bound check holds at and above the block count (for the
16×8 raster index 2 and for the 16×16 scenario index 4, get_block fails with
the out-of-bounds block index error), but extraction does not succeed for
every in-range index: for the 16×8 raster, whose dimensions are exact
multiples of 8 and whose sample count is width * height, index 1 is below
the block count 2 yet get_block fails with the raster-index error (the
source program panics on an out-of-range raster index). -/
theorem c4_get_block_index_errors :
    pgm16x8.num_blocks 8 = 2 ∧
      pgm16x8.get_block 8 1 = Except.error "index out of range" ∧
      pgm16x8.get_block 8 2 = Except.error "out of bounds block index" ∧
      pgm16.num_blocks 8 = 4 ∧
      pgm16.get_block 8 4 = Except.error "out of bounds block index" :=
  ⟨rfl, rfl, rfl, rfl, rfl⟩

/-- Claim C5 counterexample: the quantizer is not floor division on every
real input: the f64-to-i16 conversion saturates at the bounds of the 16-bit
signed range, so quantize(1000000, 16) = 32767 while
floor(1000000 / 16) = 62500. -/
theorem c5_quantize_saturates :
    quantize (1000000 : ℝ) 16 = 32767 ∧
      ⌊(1000000 : ℝ) / ((16 : Nat) : ℝ)⌋ = 62500 ∧ (32767 : Int) ≠ 62500 := by
  refine ⟨?_, floor_big_div_sixteen, by norm_num⟩
  rw [quantize, floor_big_div_sixteen]
  rfl

/-- Claim C5 (amended): whenever floor(c / d) fits in the 16-bit signed range
(which holds for every DCT coefficient of an 8-bit block divided by any entry
of the table), quantize(c, d) = floor(c / d), rounding toward negative
infinity; in particular quantize(-1, 16) = -1 (not 0), and the divisor at
flat index i is the i-th entry of the fixed JPEG luminance table starting
16, 11, 10, 16, 24, 40, 51, 61. -/
theorem c5_quantize_floor (c : ℝ) (d : Nat)
    (h1 : -32768 ≤ ⌊c / (d : ℝ)⌋) (h2 : ⌊c / (d : ℝ)⌋ ≤ 32767) :
    quantize c d = ⌊c / (d : ℝ)⌋ ∧ quantize (-1 : ℝ) 16 = -1 ∧
      QUANTIZATION_TABLE = [16, 11, 10, 16, 24, 40, 51, 61, 12, 12, 14, 19, 26, 58, 60, 55,
        14, 13, 16, 24, 40, 57, 69, 56, 14, 17, 22, 29, 51, 87, 80, 62,
        18, 22, 37, 56, 68, 109, 103, 77, 24, 35, 55, 64, 81, 104, 113, 92,
        49, 64, 78, 87, 103, 121, 120, 101, 72, 92, 95, 98, 112, 100, 103, 99] :=
  ⟨quantize_eq_floor c d h1 h2, quantize_neg_one_sixteen, rfl⟩

theorem c5_quantize_floor_witness :
    quantize (-1 : ℝ) 16 = ⌊(-1 : ℝ) / ((16 : Nat) : ℝ)⌋ ∧ quantize (-1 : ℝ) 16 = -1 ∧
      QUANTIZATION_TABLE = [16, 11, 10, 16, 24, 40, 51, 61, 12, 12, 14, 19, 26, 58, 60, 55,
        14, 13, 16, 24, 40, 57, 69, 56, 14, 17, 22, 29, 51, 87, 80, 62,
        18, 22, 37, 56, 68, 109, 103, 77, 24, 35, 55, 64, 81, 104, 113, 92,
        49, 64, 78, 87, 103, 121, 120, 101, 72, 92, 95, 98, 112, 100, 103, 99] :=
  c5_quantize_floor (-1) 16 (by rw [floor_neg_one_div_sixteen]; norm_num)
    (by rw [floor_neg_one_div_sixteen]; norm_num)

/-- Claim C6: for an 8×8 block all of whose 64 samples equal a constant k,
the DCT output has G(0,0) = 8 * (k - 128) and G(u,v) = 0 at every other
frequency pair; in particular for an all-128 block the level-shifted block,
the DCT output and the quantized output are all the all-zero 64-element
sequence. -/
theorem c6_dct_constant_block (k : Nat) :
    (dct_block 8 8 (List.replicate 64 k)).getD 0 0 = 8 * ((k : ℝ) - 128) ∧
    (∀ idx, idx < 64 → idx ≠ 0 → (dct_block 8 8 (List.replicate 64 k)).getD idx 0 = 0) ∧
    level_shift_block (List.replicate 64 128) = List.replicate 64 0 ∧
    dct_block 8 8 (List.replicate 64 128) = List.replicate 64 0 ∧
    quantize_block (dct_block 8 8 (List.replicate 64 128)) = List.replicate 64 0 := by
  have hdc : ∀ k2 : Nat, (dct_block 8 8 (List.replicate 64 k2)).getD 0 0 =
      8 * ((k2 : ℝ) - 128) := by
    intro k2
    rw [dct_block_const_entry k2 0 (by norm_num)]
    rw [show (0 : Nat) / 8 = 0 from rfl, show (0 : Nat) % 8 = 0 from rfl]
    rw [sum_cos_freq_dc]
    have ha0 : alpha 0 = 1 / Real.sqrt 2 := by rw [alpha, if_pos rfl]
    rw [ha0]
    have hs : Real.sqrt 2 * Real.sqrt 2 = 2 := Real.mul_self_sqrt (by norm_num)
    rw [show (0.25 : ℝ) * (1 / Real.sqrt 2) * (1 / Real.sqrt 2) * (((k2 : ℝ) - 128) * 8 * 8) =
          16 * (((k2 : ℝ) - 128) / (Real.sqrt 2 * Real.sqrt 2)) from by ring, hs]
    ring
  have hac : ∀ k2 idx : Nat, idx < 64 → idx ≠ 0 →
      (dct_block 8 8 (List.replicate 64 k2)).getD idx 0 = 0 := by
    intro k2 idx hidx hne
    rw [dct_block_const_entry k2 idx hidx]
    by_cases hi : idx / 8 = 0
    · have hj : idx % 8 ≠ 0 := by omega
      rw [sum_cos_freq_zero (idx % 8) (by omega) (by omega)]
      ring
    · rw [sum_cos_freq_zero (idx / 8) (by omega) (by omega)]
      ring
  have hlev : level_shift_block (List.replicate 64 128) = List.replicate 64 0 := by
    rw [level_shift_block, List.map_replicate]
    norm_num
  have hblk : dct_block 8 8 (List.replicate 64 128) = List.replicate 64 0 := by
    have hlen : (dct_block 8 8 (List.replicate 64 128)).length = 64 := by
      simp [dct_block, level_shift_block]
    apply List.ext_getElem?
    intro n
    by_cases hn : n < 64
    · rw [List.getElem?_eq_getElem (by rw [hlen]; exact hn), List.getElem?_replicate, if_pos hn]
      refine congrArg some ?_
      rw [← List.getD_eq_getElem (dct_block 8 8 (List.replicate 64 128)) 0
            (by rw [hlen]; exact hn)]
      by_cases h0 : n = 0
      · rw [h0, hdc 128]
        norm_num
      · exact hac 128 n hn h0
    · rw [List.getElem?_eq_none (by rw [hlen]; omega), List.getElem?_replicate, if_neg hn]
  have hq : quantize_block (dct_block 8 8 (List.replicate 64 128)) = List.replicate 64 0 := by
    rw [hblk, quantize_block, List.length_replicate]
    have hz : ∀ idx : Nat, quantize ((List.replicate 64 (0 : ℝ)).getD idx 0)
        (QUANTIZATION_TABLE.getD idx 0) = 0 := by
      intro idx
      have hg : (List.replicate 64 (0 : ℝ)).getD idx 0 = 0 := by
        by_cases h : idx < 64
        · exact getD_replicate 64 0 0 idx h
        · rw [List.getD_eq_getElem?_getD, List.getElem?_replicate, if_neg h]
          rfl
      rw [hg, quantize, zero_div, Int.floor_zero]
      rfl
    rw [List.map_congr_left (fun idx _ => hz idx), List.map_const', List.length_range]
  exact ⟨hdc k, fun idx h1 h2 => hac k idx h1 h2, hlev, hblk, hq⟩

theorem c6_dct_constant_block_witness :
    (dct_block 8 8 (List.replicate 64 130)).getD 0 0 = 8 * ((130 : Nat) - 128 : ℝ) ∧
      (dct_block 8 8 (List.replicate 64 130)).getD 5 0 = 0 :=
  ⟨(c6_dct_constant_block 130).1,
    (c6_dct_constant_block 130).2.1 5 (by norm_num) (by norm_num)⟩

/-- Claim C7: on every input raster the pipeline either reports the first
error encountered (dct returns exactly the error of the smallest failing
block index, every earlier index having extracted successfully, and no
partial output is exposed) or fully succeeds with exactly one quantized
coefficient block per block index, in ascending block-index order. -/
theorem c7_dct_all_or_first_error (img : PGMImage) :
    (∃ e b, dct img = Except.error e ∧ b < img.num_blocks 8 ∧
        img.get_block 8 b = Except.error e ∧
        ∀ b2, b2 < b → ∃ blk, img.get_block 8 b2 = Except.ok blk) ∨
    (∃ out, dct img = Except.ok out ∧ out.length = img.num_blocks 8 ∧
        ∀ b, b < img.num_blocks 8 → ∃ blk, img.get_block 8 b = Except.ok blk ∧
          out.getD b [] = quantize_block (dct_block 8 8 blk)) := by
  rw [dct]
  exact dct_fold_spec img (img.num_blocks 8)

/-- Claim C8: block_count returns (width * height) / (block_size *
block_size); in particular a 512×512 raster has 4096 blocks of size 8. -/
theorem c8_num_blocks_formula (img : PGMImage) (bs : Nat) :
    img.num_blocks bs = img.width * img.height / (bs * bs) ∧
      (img.width = 512 → img.height = 512 → img.num_blocks 8 = 4096) := by
  refine ⟨rfl, fun hw hh => ?_⟩
  rw [PGMImage.num_blocks, hw, hh]

theorem c8_num_blocks_formula_witness : pgm512.num_blocks 8 = 4096 :=
  (c8_num_blocks_formula pgm512 8).2 rfl rfl

/-- Claim C9: for every square raster whose side is a positive multiple of 8
with sample list of length width * height, and every in-range block index,
get_block returns exactly 64 samples, and despite the wraparound arithmetic
on the output index the gather is row-major from the computed start offset:
the element at flat position 8 * r + c is the raster sample at offset
translate_index 8 b + r * width + c. -/
theorem c9_get_block_row_major_gather (img : PGMImage) (m b : Nat)
    (hw : img.width = 8 * m) (hh : img.height = img.width) (hm : 0 < m)
    (hlen : img.image_u8.length = img.width * img.height)
    (hb : b < img.num_blocks 8) :
    ∃ ret, img.get_block 8 b = Except.ok ret ∧ ret.length = 64 ∧
      ∀ r c, r < 8 → c < 8 →
        ret.getD (8 * r + c) 0 =
          img.image_u8.getD (img.translate_index 8 b + r * img.width + c) 0 := by
  obtain ⟨ret, h1, h2, h3⟩ := get_block_square_char img m b hw hh hm hlen hb
  refine ⟨ret, h1, h2, fun r c hr hc => ?_⟩
  rw [show img.translate_index 8 b + r * img.width + c =
        img.translate_index 8 b + c + img.width * r from by ring]
  exact h3 r c hr hc

theorem c9_get_block_row_major_gather_witness :
    ((pgm16.get_block 8 1).toOption.getD []).getD 10 0 =
      pgm16.image_u8.getD (pgm16.translate_index 8 1 + 1 * pgm16.width + 2) 0 := by
  obtain ⟨ret, h1, h2, h3⟩ :=
    c9_get_block_row_major_gather pgm16 2 1 rfl rfl (by norm_num) (by decide) (by decide)
  rw [h1, show (10 : Nat) = 8 * 1 + 2 from rfl]
  exact h3 1 2 (by norm_num) (by norm_num)

/-- Claim C10: for every square raster whose side is a positive multiple of
8 with sample list of length width * height, and every in-range block index,
every raster index i + width * j computed inside get_block (with i in
[start_index, start_index + 8) and j in [0, 8)) is strictly below
width * height, so indexing never goes out of bounds and get_block returns a
block rather than the index-error branch. -/
theorem c10_get_block_in_bounds (img : PGMImage) (m b : Nat)
    (hw : img.width = 8 * m) (hh : img.height = img.width) (hm : 0 < m)
    (hlen : img.image_u8.length = img.width * img.height)
    (hb : b < img.num_blocks 8) :
    (∀ i j, img.translate_index 8 b ≤ i → i < img.translate_index 8 b + 8 → j < 8 →
        i + img.width * j < img.width * img.height) ∧
      ∃ ret, img.get_block 8 b = Except.ok ret := by
  have hnb : img.num_blocks 8 = m * m := by
    rw [PGMImage.num_blocks, hh, hw, show 8 * m * (8 * m) = 64 * (m * m) from by ring]
    omega
  constructor
  · intro i j hi1 hi2 hj
    have hbd := translate_bound img m b (i - img.translate_index 8 b) j hw hh hm
      (by rw [hnb] at hb; exact hb) (by omega) hj
    omega
  · obtain ⟨ret, h1, -, -⟩ := get_block_square_char img m b hw hh hm hlen hb
    exact ⟨ret, h1⟩

theorem c10_get_block_in_bounds_witness :
    (35 + pgm16.width * 4 < pgm16.width * pgm16.height) ∧
      ∃ ret, pgm16.get_block 8 2 = Except.ok ret := by
  obtain ⟨h1, h2⟩ :=
    c10_get_block_in_bounds pgm16 2 2 rfl rfl (by norm_num) (by decide) (by decide)
  exact ⟨h1 35 4 (by decide) (by decide) (by norm_num), h2⟩
